import Mathlib

/-!
Verification of the Simple Notes single-page application
(`src/notes_app_frontend/src/App.js`).

The application state is a list of notes together with a search query and
two UI-mode fields (`isAdding : Bool`, `editingId : Option String`).  The
handlers `handleCreate`, `handleUpdate`, `handleDelete` and the derived
`filtered` list are translated directly from the source.  Conventions of
the embedding:

* JavaScript strings are Lean `String`s; `String.prototype.trim` and
  `toLowerCase` are modelled on the underlying character list
  (`jsTrim`, `jsToLower`), and `String.prototype.includes` as `strIncludes`.
* Timestamps (`new Date().toISOString()`) are modelled as naturals: the
  ISO-8601 strings produced by the runtime are order-isomorphic to the
  instants they denote, so `now : Nat` stands for the instant obtained at
  a handler invocation.  Clock monotonicity (`Date.now` never decreases)
  appears as an explicit hypothesis on reachability steps.
* `JSON.stringify` / `JSON.parse` and `localStorage` are platform
  builtins, not code of this repository; they are abstracted as a
  `stringify : Json → String` / `jsonParse : String → Option Json` pair,
  with the round-trip law supplied as a hypothesis where a claim needs it.
-/

namespace NotesApp

/-- Characterwise model of `String.prototype.trim`: drop whitespace from
both ends of the character list. -/
def trimList (l : List Char) : List Char :=
  ((l.dropWhile Char.isWhitespace).reverse.dropWhile Char.isWhitespace).reverse

/-- JavaScript `s.trim()`. -/
def jsTrim (s : String) : String :=
  ⟨trimList s.data⟩

/-- JavaScript `s.toLowerCase()`, characterwise. -/
def jsToLower (s : String) : String :=
  ⟨s.data.map Char.toLower⟩

/-- Substring occurrence on character lists: `needle` occurs contiguously
inside `hay` (the semantics of `hay.includes(needle)`). -/
def listIncludes : (hay needle : List Char) → Bool
  | [], needle => needle.isEmpty
  | c :: t, needle => needle.isPrefixOf (c :: t) || listIncludes t needle

/-- JavaScript `hay.includes(needle)`. -/
def strIncludes (hay needle : String) : Bool :=
  listIncludes hay.data needle.data

/-- A note record, the sole persisted entity (App.js lines 61-67).
`createdAt`/`updatedAt` are instants (see the module comment). -/
structure Note where
  id : String
  title : String
  content : String
  createdAt : Nat
  updatedAt : Nat
deriving DecidableEq, Repr

/-- The values submitted by the note form: `content` is `Option`al because
the JavaScript field may be `undefined` (`values.content?.trim() || ''`). -/
structure FormValues where
  title : String
  content : Option String
deriving DecidableEq, Repr

/-- `values.content?.trim() || ''`: an absent content collapses to `""`,
otherwise the content is trimmed (a trimmed-to-empty string stays `""`). -/
def trimmedContent : Option String → String
  | none => ""
  | some s => jsTrim s

/-- The id generator `uid` (App.js line 5): current epoch milliseconds,
a dash, and a pseudo-random base-36 suffix. -/
def uid (ms : Nat) (rand : String) : String :=
  toString ms ++ "-" ++ rand

/-- The new note built by `handleCreate` (App.js lines 60-67). -/
def mkNewNote (newId : String) (now : Nat) (values : FormValues) : Note :=
  { id := newId
    title := jsTrim values.title
    content := trimmedContent values.content
    createdAt := now
    updatedAt := now }

/-- `handleCreate` (App.js lines 59-70): prepend the freshly built note. -/
def handleCreate (newId : String) (now : Nat) (values : FormValues)
    (prev : List Note) : List Note :=
  mkNewNote newId now values :: prev

/-- The per-note edit applied by `handleUpdate` (App.js lines 74-79):
spread the old note, overwrite title, content and `updatedAt`. -/
def updateNote (now : Nat) (values : FormValues) (n : Note) : Note :=
  { n with
    title := jsTrim values.title
    content := trimmedContent values.content
    updatedAt := now }

/-- `handleUpdate` (App.js lines 72-81): map over the collection, editing
exactly the positions whose id matches. -/
def handleUpdate (id : String) (now : Nat) (values : FormValues)
    (prev : List Note) : List Note :=
  prev.map fun n => if n.id = id then updateNote now values n else n

/-- `handleDelete` (App.js lines 83-90): `ok` is the result of the
`window.confirm` dialog; when accepted, keep the notes whose id differs. -/
def handleDelete (id : String) (ok : Bool) (notes : List Note) : List Note :=
  if ok then notes.filter (fun n => n.id != id) else notes

/-- The filter predicate of the derived `filtered` list (App.js lines
52-55), for an already trimmed-and-lowered query `q`. -/
def noteMatches (q : String) (n : Note) : Bool :=
  strIncludes (jsToLower n.title) q || strIncludes (jsToLower n.content) q

/-- The derived `filtered` list (App.js lines 49-56): trim and lower the
query; an empty result short-circuits to the whole collection. -/
def filtered (query : String) (notes : List Note) : List Note :=
  let q := jsToLower (jsTrim query)
  if q = "" then notes else notes.filter (noteMatches q)

/-- `isEdited` in `NoteView` (App.js line 296): the "Updated" badge is
rendered exactly when this is `true`. -/
def isEdited (n : Note) : Bool :=
  n.createdAt != n.updatedAt

/-- JSON values, as produced by the platform `JSON.parse`.  Numbers are
abstracted to integers (notes themselves serialize only strings and
timestamps). -/
inductive Json where
  | null : Json
  | bool : Bool → Json
  | num : Int → Json
  | str : String → Json
  | arr : List Json → Json
  | obj : List (String × Json) → Json

/-- The startup hydration effect (App.js lines 25-37): read the raw
payload (`none` models an absent key or a storage read that throws); a
falsy payload (absent or `""`) and any parse failure are swallowed, and
only a payload parsing to an array is adopted — verbatim, with no
validation of its elements. -/
def hydrateNotes (jsonParse : String → Option Json) (raw : Option String) :
    List Json :=
  match raw with
  | none => []
  | some s =>
    if s = "" then []
    else
      match jsonParse s with
      | some (Json.arr xs) => xs
      | _ => []

/-- The JSON encoding of one note, per the persisted layout (spec section
6): string fields plus the two timestamps. -/
def noteToJson (n : Note) : Json :=
  Json.obj
    [("id", Json.str n.id), ("title", Json.str n.title),
     ("content", Json.str n.content),
     ("createdAt", Json.num n.createdAt), ("updatedAt", Json.num n.updatedAt)]

/-- The persist effect (App.js lines 40-46): `JSON.stringify(notes)`
applied to the whole collection, newest first. -/
def persistNotes (stringify : Json → String) (notes : List Note) : String :=
  stringify (Json.arr (notes.map noteToJson))

/-! Basic facts about the string model. -/

lemma trimList_eq_rdropWhile (l : List Char) :
    trimList l =
      List.rdropWhile Char.isWhitespace (List.dropWhile Char.isWhitespace l) :=
  rfl

lemma dropWhile_rdropWhile_dropWhile (l : List Char) :
    List.dropWhile Char.isWhitespace
        (List.rdropWhile Char.isWhitespace (List.dropWhile Char.isWhitespace l))
      = List.rdropWhile Char.isWhitespace (List.dropWhile Char.isWhitespace l) := by
  rw [List.dropWhile_eq_self_iff]
  intro hl
  have hpre :=
    List.rdropWhile_prefix Char.isWhitespace (List.dropWhile Char.isWhitespace l)
  have hlen : 0 < (List.dropWhile Char.isWhitespace l).length :=
    lt_of_lt_of_le hl hpre.length_le
  have hget := List.IsPrefix.getElem hpre hl
  simp only [List.get_eq_getElem, hget]
  have := List.dropWhile_get_zero_not Char.isWhitespace l hlen
  simpa [List.get_eq_getElem] using this

lemma trimList_idem (l : List Char) : trimList (trimList l) = trimList l := by
  rw [trimList_eq_rdropWhile, trimList_eq_rdropWhile, dropWhile_rdropWhile_dropWhile]
  exact List.rdropWhile_idempotent _ _

lemma jsTrim_idem (s : String) : jsTrim (jsTrim s) = jsTrim s :=
  congrArg String.mk (trimList_idem s.data)

lemma listIncludes_nil (hay : List Char) : listIncludes hay [] = true := by
  cases hay <;> rfl

lemma noteMatches_empty (n : Note) : noteMatches "" n = true := by
  unfold noteMatches strIncludes
  rw [show ("" : String).data = [] from rfl, listIncludes_nil]
  rfl

lemma filtered_def (query : String) (notes : List Note) :
    filtered query notes =
      if jsToLower (jsTrim query) = "" then notes
      else notes.filter (noteMatches (jsToLower (jsTrim query))) :=
  rfl

/-! ### C10 — query trimming is idempotent for the filtered view -/

/-- C10: the search query is trimmed before matching, so filtering with a
query yields the same visible notes as filtering with its trimmed form;
leading and trailing whitespace in the query never affects the view. -/
theorem filtered_trim_query (query : String) (notes : List Note) :
    filtered (jsTrim query) notes = filtered query notes := by
  rw [filtered_def, filtered_def, jsTrim_idem]

/-! ### C4 — the filtered view -/

/-- C4: the filtered view is exactly the subsequence of notes whose
lowered title or content contains the trimmed-and-lowered query as a
substring; it is an order-preserving sublist of the collection (also by
id), and an empty or whitespace-only query yields the full collection. -/
theorem filtered_spec (query : String) (notes : List Note) :
    filtered query notes = notes.filter (noteMatches (jsToLower (jsTrim query)))
    ∧ List.Sublist (filtered query notes) notes
    ∧ List.Sublist ((filtered query notes).map Note.id) (notes.map Note.id)
    ∧ (jsTrim query = "" → filtered query notes = notes) := by
  have h1 : filtered query notes
      = notes.filter (noteMatches (jsToLower (jsTrim query))) := by
    rw [filtered_def]
    by_cases hq : jsToLower (jsTrim query) = ""
    · rw [if_pos hq, hq]
      exact (List.filter_eq_self.mpr fun a _ => noteMatches_empty a).symm
    · rw [if_neg hq]
  have h2 : List.Sublist (filtered query notes) notes := by
    rw [h1]; exact List.filter_sublist notes
  refine ⟨h1, h2, h2.map Note.id, fun he => ?_⟩
  rw [filtered_def, if_pos]
  rw [he]
  decide

/-- A concrete note used by several witnesses. -/
def groceriesNote : Note :=
  { id := "a", title := "Groceries", content := "milk", createdAt := 1, updatedAt := 1 }

/-- Witness for C4 at a concrete collection and a whitespace-only query. -/
theorem filtered_spec_witness :
    filtered "  " [groceriesNote] = [groceriesNote] :=
  (filtered_spec "  " _).2.2.2 (by decide)

/-! ### C1 — Create prepends exactly one fresh note -/

/-- C1: for a submitted form value whose title is non-empty after
trimming, `handleCreate` adds exactly one note at the head of the
collection — the pre-existing notes follow unchanged and in order — with
the freshly generated id, trimmed title and content, and
`createdAt = updatedAt = now`. -/
theorem create_prepends (ms now : Nat) (rand : String) (values : FormValues)
    (prev : List Note)
    (htitle : jsTrim values.title ≠ "")
    (hfresh : uid ms rand ∉ prev.map Note.id) :
    (handleCreate (uid ms rand) now values prev).head? = some
      { id := uid ms rand
        title := jsTrim values.title
        content := trimmedContent values.content
        createdAt := now
        updatedAt := now }
    ∧ (handleCreate (uid ms rand) now values prev).tail = prev
    ∧ (handleCreate (uid ms rand) now values prev).length = prev.length + 1
    ∧ uid ms rand ∉ prev.map Note.id :=
  ⟨rfl, rfl, rfl, hfresh⟩

/-- Witness for C1: creating "Groceries" on an empty collection. -/
theorem create_prepends_witness :
    (handleCreate (uid 1 "ab") 5 ⟨" Groceries ", some " milk "⟩ []).head? = some
      { id := "1-ab"
        title := "Groceries"
        content := "milk"
        createdAt := 5
        updatedAt := 5 } :=
  (create_prepends 1 5 "ab" ⟨" Groceries ", some " milk "⟩ []
    (by decide) (by decide)).1

/-! ### C2 — Update is a frame-respecting edit -/

/-- C2: updating an id present in the collection preserves the length and
the id/createdAt sequences (hence the relative order); every position
whose id differs is untouched, and every position carrying the targeted
id gets the trimmed title and content and `updatedAt = now`, keeping its
id and `createdAt`, with the new `updatedAt` at least the previous one
(the clock never runs backwards: `hclock`). -/
theorem update_frame (id : String) (now : Nat) (values : FormValues)
    (prev : List Note)
    (hmem : id ∈ prev.map Note.id)
    (hclock : ∀ n ∈ prev, n.updatedAt ≤ now) :
    (handleUpdate id now values prev).length = prev.length
    ∧ (handleUpdate id now values prev).map Note.id = prev.map Note.id
    ∧ (handleUpdate id now values prev).map Note.createdAt
        = prev.map Note.createdAt
    ∧ ∀ (i : Nat) (n : Note), prev[i]? = some n →
        (n.id ≠ id → (handleUpdate id now values prev)[i]? = some n)
        ∧ (n.id = id →
            (handleUpdate id now values prev)[i]? = some
              { id := n.id
                title := jsTrim values.title
                content := trimmedContent values.content
                createdAt := n.createdAt
                updatedAt := now }
            ∧ n.updatedAt ≤ now) := by
  refine ⟨List.length_map .., ?_, ?_, ?_⟩
  · unfold handleUpdate
    rw [List.map_map]
    refine List.map_congr_left fun n _ => ?_
    by_cases hn : n.id = id <;> simp [hn, updateNote]
  · unfold handleUpdate
    rw [List.map_map]
    refine List.map_congr_left fun n _ => ?_
    by_cases hn : n.id = id <;> simp [hn, updateNote]
  · intro i n hget
    have hmap : (handleUpdate id now values prev)[i]?
        = some (if n.id = id then updateNote now values n else n) := by
      unfold handleUpdate
      rw [List.getElem?_map, hget]
      rfl
    constructor
    · intro hne
      rw [hmap, if_neg hne]
    · intro heq
      refine ⟨?_, hclock n (List.getElem?_mem hget)⟩
      rw [hmap, if_pos heq]
      rfl

/-- A second concrete note (distinct id) used by witnesses. -/
def taxesNote : Note :=
  { id := "b", title := "Taxes", content := "file by April", createdAt := 2, updatedAt := 4 }

/-- Witness for C2: editing note "b" in a two-note collection. -/
theorem update_frame_witness :
    (handleUpdate "b" 9 ⟨" Taxes ", some " done "⟩ [groceriesNote, taxesNote])[1]?
      = some
        { id := "b"
          title := "Taxes"
          content := "done"
          createdAt := 2
          updatedAt := 9 }
    ∧ (handleUpdate "b" 9 ⟨" Taxes ", some " done "⟩ [groceriesNote, taxesNote])[0]?
      = some groceriesNote := by
  have h := update_frame "b" 9 ⟨" Taxes ", some " done "⟩
    [groceriesNote, taxesNote] (by decide) (by decide)
  exact ⟨((h.2.2.2 1 taxesNote rfl).2 rfl).1, (h.2.2.2 0 groceriesNote rfl).1 (by decide)⟩

/-! ### C3 — Delete removes exactly the confirmed target -/

lemma length_filter_not_add_countP (p : Note → Bool) (l : List Note) :
    (l.filter fun a => !p a).length + l.countP p = l.length := by
  induction l with
  | nil => rfl
  | cons a t ih =>
    by_cases hp : p a <;>
      simp [List.filter_cons, List.countP_cons, hp, ← ih] <;> omega

/-- C3: when the collection carries the targeted id exactly once,
a confirmed delete shrinks the collection by exactly one, keeps it an
order-preserving sublist of the original, retains every note with a
different id and nothing with the targeted id; a declined confirmation
leaves the collection unchanged. -/
theorem delete_confirmed (id : String) (notes : List Note)
    (hone : notes.countP (fun n => n.id == id) = 1) :
    (handleDelete id true notes).length + 1 = notes.length
    ∧ List.Sublist (handleDelete id true notes) notes
    ∧ (∀ n ∈ notes, n.id ≠ id → n ∈ handleDelete id true notes)
    ∧ (∀ n ∈ handleDelete id true notes, n ∈ notes ∧ n.id ≠ id)
    ∧ handleDelete id false notes = notes := by
  have hdef : handleDelete id true notes
      = notes.filter fun n => !(n.id == id) := rfl
  refine ⟨?_, ?_, ?_, ?_, rfl⟩
  · rw [hdef, ← hone]
    exact length_filter_not_add_countP (fun n => n.id == id) notes
  · rw [hdef]; exact List.filter_sublist notes
  · intro n hn hne
    rw [hdef]
    exact List.mem_filter.mpr ⟨hn, by simpa using hne⟩
  · intro n hn
    rw [hdef] at hn
    have h := List.mem_filter.mp hn
    exact ⟨h.1, by simpa using h.2⟩

/-- Witness for C3: deleting "a" from the two-note collection. -/
theorem delete_confirmed_witness :
    (handleDelete "a" true [groceriesNote, taxesNote]).length + 1 = 2
    ∧ handleDelete "a" false [groceriesNote, taxesNote]
        = [groceriesNote, taxesNote] := by
  have h := delete_confirmed "a" [groceriesNote, taxesNote] (by decide)
  exact ⟨h.1, h.2.2.2.2⟩

/-! ### C7 — hydration cases -/

lemma hydrateNotes_some (jsonParse : String → Option Json) (s : String) :
    hydrateNotes jsonParse (some s) =
      if s = "" then []
      else
        match jsonParse s with
        | some (Json.arr xs) => xs
        | _ => [] :=
  rfl

/-- C7: hydration adopts the parsed value when the stored payload parses
as a JSON array, and yields the empty collection in every other case —
absent key, parse failure, or a payload parsing to a non-array — with no
error surfaced (the function is total).  `hempty` records that the empty
string is not valid JSON (`JSON.parse("")` throws). -/
theorem hydrate_cases (jsonParse : String → Option Json)
    (hempty : jsonParse "" = none) :
    hydrateNotes jsonParse none = []
    ∧ (∀ s, jsonParse s = none → hydrateNotes jsonParse (some s) = [])
    ∧ (∀ s j, jsonParse s = some j → (∀ xs, j ≠ Json.arr xs) →
        hydrateNotes jsonParse (some s) = [])
    ∧ (∀ s xs, jsonParse s = some (Json.arr xs) →
        hydrateNotes jsonParse (some s) = xs) := by
  refine ⟨rfl, ?_, ?_, ?_⟩
  · intro s hs
    rw [hydrateNotes_some]
    by_cases he : s = ""
    · rw [if_pos he]
    · rw [if_neg he, hs]
  · intro s j hs hj
    rw [hydrateNotes_some]
    by_cases he : s = ""
    · rw [if_pos he]
    · rw [if_neg he, hs]
      match j, hj with
      | Json.null, _ => rfl
      | Json.bool b, _ => rfl
      | Json.num m, _ => rfl
      | Json.str t, _ => rfl
      | Json.arr xs, hj => exact absurd rfl (hj xs)
      | Json.obj fields, _ => rfl
  · intro s xs hs
    rw [hydrateNotes_some]
    have he : s ≠ "" := by
      intro h
      rw [h, hempty] at hs
      cases hs
    rw [if_neg he, hs]

/-- Witness for C7, exercising the absent-key, parse-failure and
non-array cases against a parser that rejects everything except the
literal `"7"`. -/
theorem hydrate_cases_witness :
    hydrateNotes (fun s => if s = "7" then some (Json.num 7) else none) none = []
    ∧ hydrateNotes (fun s => if s = "7" then some (Json.num 7) else none)
        (some "oops") = []
    ∧ hydrateNotes (fun s => if s = "7" then some (Json.num 7) else none)
        (some "7") = [] := by
  have h := hydrate_cases (fun s => if s = "7" then some (Json.num 7) else none)
    rfl
  exact ⟨h.1, h.2.1 "oops" rfl, h.2.2.1 "7" (Json.num 7) rfl
    (fun xs hx => Json.noConfusion hx)⟩

/-! ### C9 — hydration performs no element validation -/

/-- C9: if the stored payload parses as a JSON array, hydration adopts
the array verbatim: the elements — of any shape whatsoever, objects or
not, with or without the note fields — enter the collection unchanged. -/
theorem hydrate_verbatim (jsonParse : String → Option Json) (s : String)
    (xs : List Json)
    (hs : jsonParse s = some (Json.arr xs)) (hne : s ≠ "") :
    hydrateNotes jsonParse (some s) = xs := by
  rw [hydrateNotes_some, if_neg hne, hs]

/-- Witness for C9: a payload parsing to an array of values that are not
note objects at all (a null, a bare string, a number) is adopted as-is. -/
theorem hydrate_verbatim_witness :
    hydrateNotes
      (fun s => if s = "[null]" then
        some (Json.arr [Json.null, Json.str "x", Json.num 3]) else none)
      (some "[null]")
      = [Json.null, Json.str "x", Json.num 3] :=
  hydrate_verbatim _ "[null]" _ rfl (by decide)

/-! ### C6 — persist / hydrate round trip -/

/-- C6: hydrating the string the persist effect wrote recovers the
collection exactly — same ids, same field values, same order.  The
platform pair `JSON.stringify` / `JSON.parse` enters through `hrt`, the
round-trip law at the persisted value (and `hne`: a stringified array is
never the empty string); `noteToJson` is injective, so equality of the
encodings is equality of the notes. -/
theorem persist_hydrate_roundtrip (stringify : Json → String)
    (jsonParse : String → Option Json) (notes : List Note)
    (hrt : jsonParse (persistNotes stringify notes)
      = some (Json.arr (notes.map noteToJson)))
    (hne : persistNotes stringify notes ≠ "") :
    hydrateNotes jsonParse (some (persistNotes stringify notes))
      = notes.map noteToJson
    ∧ ∀ a b : Note, noteToJson a = noteToJson b → a = b := by
  constructor
  · rw [hydrateNotes_some, if_neg hne, hrt]
  · intro a b h
    cases a
    cases b
    simpa [noteToJson] using h

/-- Witness for C6 with a concrete one-note collection and a codec pair
satisfying the round-trip law at the persisted value. -/
theorem persist_hydrate_roundtrip_witness :
    hydrateNotes
      (fun s => if s = "x" then some (Json.arr [noteToJson groceriesNote]) else none)
      (some (persistNotes (fun _ => "x") [groceriesNote]))
      = [noteToJson groceriesNote] :=
  (persist_hydrate_roundtrip (fun _ => "x")
    (fun s => if s = "x" then some (Json.arr [noteToJson groceriesNote]) else none)
    [groceriesNote] rfl (by decide)).1

/-! ### C5 — timestamp invariant and the "Updated" badge -/

/-- A note paired with a ghost flag recording whether it has ever been
edited.  The flag only instruments the semantics; the note component
evolves exactly as in the handlers. -/
abbrev GNote := Note × Bool

/-- `handleCreate` carried over ghost-flagged notes: a fresh note is
unedited. -/
def gCreate (newId : String) (now : Nat) (values : FormValues)
    (prev : List GNote) : List GNote :=
  (mkNewNote newId now values, false) :: prev

/-- `handleUpdate` carried over ghost-flagged notes: the matched
positions become edited. -/
def gUpdate (id : String) (now : Nat) (values : FormValues)
    (prev : List GNote) : List GNote :=
  prev.map fun p => if p.1.id = id then (updateNote now values p.1, true) else p

/-- `handleDelete` carried over ghost-flagged notes. -/
def gDelete (id : String) (ok : Bool) (notes : List GNote) : List GNote :=
  if ok then notes.filter (fun p => p.1.id != id) else notes

/-- Collections reachable across the application's lifecycle under a
never-decreasing clock (`Date.now` is monotone, but two operations may
fall on the same instant): starting empty, applying Create, Update and
Delete — each observing an instant `now` at least the instant `t` of the
previous step — and crossing session boundaries.  The `hydrate` step
covers "after hydration" for storage the app itself wrote: the persist
effect stores exactly the current collection's encodings and hydration
adopts the parsed array verbatim, so a later session resumes the same
collection at a later (wall-clock monotone) instant.  Hydration of
storage the app did not write is NOT covered: such payloads are adopted
with no validation and can violate every invariant (see the C5
counterexample and C9). -/
inductive ReachG : Nat → List GNote → Prop where
  | init (t : Nat) : ReachG t []
  | create (t now : Nat) (newId : String) (values : FormValues)
      (ns : List GNote) (h : ReachG t ns) (hle : t ≤ now) :
      ReachG now (gCreate newId now values ns)
  | update (t now : Nat) (id : String) (values : FormValues)
      (ns : List GNote) (h : ReachG t ns) (hle : t ≤ now) :
      ReachG now (gUpdate id now values ns)
  | delete (t : Nat) (id : String) (ok : Bool) (ns : List GNote)
      (h : ReachG t ns) : ReachG t (gDelete id ok ns)
  | hydrate (t u : Nat) (ns : List GNote) (h : ReachG t ns) (hle : t ≤ u) :
      ReachG u ns

/-- Reachability under a strictly advancing clock: every Create and
Update happens at an instant strictly later than the previous step.
Session boundaries (`hydrate`, as in `ReachG`) only need the wall clock
not to run backwards. -/
inductive SReachG : Nat → List GNote → Prop where
  | init (t : Nat) : SReachG t []
  | create (t now : Nat) (newId : String) (values : FormValues)
      (ns : List GNote) (h : SReachG t ns) (hlt : t < now) :
      SReachG now (gCreate newId now values ns)
  | update (t now : Nat) (id : String) (values : FormValues)
      (ns : List GNote) (h : SReachG t ns) (hlt : t < now) :
      SReachG now (gUpdate id now values ns)
  | delete (t : Nat) (id : String) (ok : Bool) (ns : List GNote)
      (h : SReachG t ns) : SReachG t (gDelete id ok ns)
  | hydrate (t u : Nat) (ns : List GNote) (h : SReachG t ns) (hle : t ≤ u) :
      SReachG u ns

lemma ReachG_inv_aux {t : Nat} {ns : List GNote} (h : ReachG t ns) :
    ∀ p ∈ ns, p.1.createdAt ≤ p.1.updatedAt
      ∧ (p.2 = false → p.1.createdAt = p.1.updatedAt)
      ∧ p.1.createdAt ≤ t ∧ p.1.updatedAt ≤ t := by
  induction h with
  | init t => intro p hp; cases hp
  | create t now newId values ns h hle ih =>
    intro p hp
    rcases List.mem_cons.mp hp with rfl | hmem
    · exact ⟨le_rfl, fun _ => rfl, le_rfl, le_rfl⟩
    · obtain ⟨h1, h2, h3, h4⟩ := ih p hmem
      exact ⟨h1, h2, h3.trans hle, h4.trans hle⟩
  | update t now id values ns h hle ih =>
    intro p hp
    obtain ⟨q, hq, hpq⟩ := List.mem_map.mp hp
    obtain ⟨h1, h2, h3, h4⟩ := ih q hq
    by_cases hid : q.1.id = id
    · rw [if_pos hid] at hpq
      subst hpq
      refine ⟨h3.trans hle, ?_, h3.trans hle, le_rfl⟩
      intro hfalse
      cases hfalse
    · rw [if_neg hid] at hpq
      subst hpq
      exact ⟨h1, h2, h3.trans hle, h4.trans hle⟩
  | delete t id ok ns h ih =>
    intro p hp
    unfold gDelete at hp
    by_cases hok : ok
    · rw [if_pos hok] at hp
      exact ih p (List.mem_filter.mp hp).1
    · rw [if_neg hok] at hp
      exact ih p hp
  | hydrate t u ns h hle ih =>
    intro p hp
    obtain ⟨h1, h2, h3, h4⟩ := ih p hp
    exact ⟨h1, h2, h3.trans hle, h4.trans hle⟩

lemma SReachG_inv_aux {t : Nat} {ns : List GNote} (h : SReachG t ns) :
    ∀ p ∈ ns, (p.2 = true → p.1.createdAt < p.1.updatedAt)
      ∧ (p.2 = false → p.1.createdAt = p.1.updatedAt)
      ∧ p.1.createdAt ≤ t ∧ p.1.updatedAt ≤ t := by
  induction h with
  | init t => intro p hp; cases hp
  | create t now newId values ns h hlt ih =>
    intro p hp
    rcases List.mem_cons.mp hp with rfl | hmem
    · refine ⟨?_, fun _ => rfl, le_rfl, le_rfl⟩
      intro htrue
      exact Bool.noConfusion htrue
    · obtain ⟨h1, h2, h3, h4⟩ := ih p hmem
      exact ⟨h1, h2, h3.trans hlt.le, h4.trans hlt.le⟩
  | update t now id values ns h hlt ih =>
    intro p hp
    obtain ⟨q, hq, hpq⟩ := List.mem_map.mp hp
    obtain ⟨h1, h2, h3, h4⟩ := ih q hq
    by_cases hid : q.1.id = id
    · rw [if_pos hid] at hpq
      subst hpq
      refine ⟨fun _ => lt_of_le_of_lt h3 hlt, ?_, h3.trans hlt.le, le_rfl⟩
      intro hfalse
      exact Bool.noConfusion hfalse
    · rw [if_neg hid] at hpq
      subst hpq
      exact ⟨h1, h2, h3.trans hlt.le, h4.trans hlt.le⟩
  | delete t id ok ns h ih =>
    intro p hp
    unfold gDelete at hp
    by_cases hok : ok
    · rw [if_pos hok] at hp
      exact ih p (List.mem_filter.mp hp).1
    · rw [if_neg hok] at hp
      exact ih p hp
  | hydrate t u ns h hle ih =>
    intro p hp
    obtain ⟨h1, h2, h3, h4⟩ := ih p hp
    exact ⟨h1, h2, h3.trans hle, h4.trans hle⟩

/-- C5 (amended): in every state reachable across the app's lifecycle —
starting empty, re-hydrating collections the app itself persisted
(which restores them verbatim), and applying any sequence of Create,
Update, Delete under the monotone clock — every note satisfies
`createdAt ≤ updatedAt`, and a never-edited note has the two timestamps
equal, which suppresses the "Updated" badge.  The converse — equality
implies never edited — holds under a strictly advancing clock.  The
counterexample shows both carve-outs are forced by the code: an edit
landing on the note's creation instant leaves the timestamps equal with
the badge suppressed, and hydration of an array payload the app did not
write adopts records with `updatedAt < createdAt` unvalidated. -/
theorem timestamps_invariant :
    (∀ (t : Nat) (ns : List GNote), ReachG t ns → ∀ p ∈ ns,
        p.1.createdAt ≤ p.1.updatedAt
        ∧ (p.2 = false → p.1.createdAt = p.1.updatedAt ∧ isEdited p.1 = false))
    ∧ (∀ (t : Nat) (ns : List GNote), SReachG t ns → ∀ p ∈ ns,
        (p.1.createdAt = p.1.updatedAt ↔ p.2 = false)
        ∧ (isEdited p.1 = true ↔ p.2 = true)) := by
  constructor
  · intro t ns h p hp
    obtain ⟨h1, h2, _, _⟩ := ReachG_inv_aux h p hp
    refine ⟨h1, fun hf => ⟨h2 hf, ?_⟩⟩
    simp [isEdited, h2 hf]
  · intro t ns h p hp
    obtain ⟨h1, h2, _, _⟩ := SReachG_inv_aux h p hp
    constructor
    · constructor
      · intro heq
        cases hb : p.2
        · rfl
        · exact absurd heq (Nat.ne_of_lt (h1 hb))
      · exact h2
    · constructor
      · intro hed
        cases hb : p.2
        · unfold isEdited at hed
          rw [h2 hb] at hed
          simp at hed
        · rfl
      · intro hb
        unfold isEdited
        simpa using Nat.ne_of_lt (h1 hb)

/-- A note created at instant 5 and edited at the same instant 5:
`createdAt = updatedAt` although the note has been edited. -/
def sameInstantNote : Note :=
  { id := "a", title := "t", content := "", createdAt := 5, updatedAt := 5 }

/-- A persisted record the app never wrote, carrying
`updatedAt < createdAt`. -/
def corruptNote : Note :=
  { id := "z", title := "t", content := "", createdAt := 5, updatedAt := 3 }

/-- Counterexample to C5 as stated, on both scopes the claim quantifies
over.  Operations: a reachable collection (create, then update at the
same clock reading, which the monotone millisecond clock permits)
contains a note that HAS been edited — ghost flag `true` — yet its two
timestamps are equal, so the "Updated" badge is suppressed: equality
does not hold "exactly when the note has never been edited".
Hydration: a stored payload that parses as an array is adopted with no
validation, so at startup a foreign record with `updatedAt < createdAt`
enters the collection and the invariant `updatedAt ≥ createdAt` fails
in that post-hydration state. -/
theorem timestamps_counterexample :
    (ReachG 5 [(sameInstantNote, true)] ∧ isEdited sameInstantNote = false)
    ∧ hydrateNotes
        (fun s => if s = "[z]" then some (Json.arr [noteToJson corruptNote]) else none)
        (some "[z]")
        = [noteToJson corruptNote]
    ∧ corruptNote.updatedAt < corruptNote.createdAt := by
  refine ⟨⟨?_, by decide⟩, rfl, by decide⟩
  have h1 := ReachG.create 0 5 "a" ⟨"t", none⟩ [] (ReachG.init 0) (by omega)
  have h2 := ReachG.update 5 5 "a" ⟨"t", none⟩ _ h1 le_rfl
  have he : gUpdate "a" 5 ⟨"t", none⟩ (gCreate "a" 5 ⟨"t", none⟩ [])
      = [(sameInstantNote, true)] := by decide
  exact he ▸ h2

/-- Witness for C5 (amended) at a concrete strictly-clocked trace: a
freshly created, never-edited note has equal timestamps and no badge. -/
theorem timestamps_invariant_witness :
    sameInstantNote.createdAt = sameInstantNote.updatedAt
    ∧ isEdited sameInstantNote = false := by
  have hr : ReachG 5 [(sameInstantNote, false)] := by
    have h1 := ReachG.create 0 5 "a" ⟨"t", none⟩ [] (ReachG.init 0) (by omega)
    have he : gCreate "a" 5 ⟨"t", none⟩ [] = [(sameInstantNote, false)] := by decide
    exact he ▸ h1
  have h := (timestamps_invariant.1 5 [(sameInstantNote, false)] hr
    (sameInstantNote, false) (List.mem_singleton.mpr rfl)).2 rfl
  exact h

/-! ### C8 — UI mode exclusivity -/

/-- The UI-relevant state of the Application Root component (App.js
lines 19-22). -/
structure UIState where
  notes : List Note
  query : String
  isAdding : Bool
  editingId : Option String
deriving DecidableEq, Repr

/-- One user interaction, with its rendering guard, each translated from
the source: the header button (line 115), the empty-state create button
(line 137, shown only when the filtered list is empty), the per-note
Edit entry (line 153, shown only for notes in the filtered list that are
not being edited), form submission for create (lines 59-70 guarded by
the form validation, lines 227-237) and edit (lines 72-81), the two
Cancel buttons (lines 129 and 147), Delete (lines 83-90, line 154), the
Escape shortcut (lines 93-102), and typing in the search box. -/
inductive UIStep : UIState → UIState → Prop where
  | newNoteButton (s : UIState) :
      UIStep s { s with isAdding := true, editingId := none }
  | emptyCreate (s : UIState) (h : filtered s.query s.notes = []) :
      UIStep s { s with isAdding := true }
  | startEdit (s : UIState) (id : String)
      (hmem : id ∈ (filtered s.query s.notes).map Note.id)
      (hne : s.editingId ≠ some id) :
      UIStep s { s with editingId := some id, isAdding := false }
  | submitAdd (s : UIState) (newId : String) (now : Nat) (values : FormValues)
      (hadd : s.isAdding = true) (hv : jsTrim values.title ≠ "") :
      UIStep s { s with
        notes := handleCreate newId now values s.notes
        isAdding := false }
  | submitEdit (s : UIState) (id : String) (now : Nat) (values : FormValues)
      (hedit : s.editingId = some id)
      (hmem : id ∈ (filtered s.query s.notes).map Note.id)
      (hv : jsTrim values.title ≠ "") :
      UIStep s { s with
        notes := handleUpdate id now values s.notes
        editingId := none }
  | cancelAdd (s : UIState) (hadd : s.isAdding = true) :
      UIStep s { s with isAdding := false }
  | cancelEdit (s : UIState) (id : String) (hedit : s.editingId = some id) :
      UIStep s { s with editingId := none }
  | deleteClick (s : UIState) (id : String) (ok : Bool)
      (hmem : id ∈ (filtered s.query s.notes).map Note.id)
      (hne : s.editingId ≠ some id) :
      UIStep s { s with notes := handleDelete id ok s.notes }
  | escapeKey (s : UIState) :
      UIStep s { s with isAdding := false, editingId := none }
  | setQuery (s : UIState) (q : String) :
      UIStep s { s with query := q }

/-- UI states reachable by user interactions from the initial state
(empty storage: no notes, empty query, no mode active). -/
inductive ReachUI : UIState → Prop where
  | init : ReachUI { notes := [], query := "", isAdding := false, editingId := none }
  | step (s u : UIState) (h : ReachUI s) (hs : UIStep s u) : ReachUI u

/-- The note created along the violating trace below. -/
def demoNote : Note :=
  { id := "1-ab", title := "a", content := "", createdAt := 1, updatedAt := 1 }

/-- The state reached by: New Note, submit "a", Edit the note, search
"zzz" (matching nothing), then the empty state's "+ Create a new note"
button.  Both the add form and an edit are active simultaneously. -/
def violatingState : UIState :=
  { notes := [demoNote], query := "zzz", isAdding := true, editingId := some "1-ab" }

/-- C8 fails on the code: the empty-state create button (App.js line
137) sets `isAdding` without clearing `editingId`, so a reachable state
has the add form visible while an edit is in progress — after clearing
the search both forms render at once.  Every other opening transition
(lines 115 and 153) does close the other mode; the claim describes the
evident intent, and line 137 is the slip. -/
theorem mode_exclusivity_violation :
    ReachUI violatingState
    ∧ violatingState.isAdding = true
    ∧ violatingState.editingId ≠ none := by
  refine ⟨?_, rfl, by decide⟩
  have h0 : ReachUI { notes := [], query := "", isAdding := false, editingId := none } :=
    ReachUI.init
  have h1 : ReachUI { notes := [], query := "", isAdding := true, editingId := none } :=
    ReachUI.step _ _ h0 (UIStep.newNoteButton _)
  have h2 : ReachUI { notes := [demoNote], query := "", isAdding := false, editingId := none } :=
    ReachUI.step _ _ h1 (UIStep.submitAdd _ "1-ab" 1 ⟨"a", none⟩ rfl (by decide))
  have h3 : ReachUI { notes := [demoNote], query := "", isAdding := false, editingId := some "1-ab" } :=
    ReachUI.step _ _ h2 (UIStep.startEdit _ "1-ab" (by decide) (by decide))
  have h4 : ReachUI { notes := [demoNote], query := "zzz", isAdding := false, editingId := some "1-ab" } :=
    ReachUI.step _ _ h3 (UIStep.setQuery _ "zzz")
  exact ReachUI.step _ _ h4 (UIStep.emptyCreate _ (by decide))

end NotesApp
